import Mathlib

/-!
Shallow embedding of the matching/scoring engine of `backend/app/main.py`
(ai-resume-matcher).  Python floats are modelled by `ℚ` (with `ℝ` only where
the source takes a square root), Python lists by `List`, the per-candidate
`analysis_results` dict by an association list with dict update semantics,
and the external capabilities (rapidfuzz `partial_ratio`, the TF-IDF
vectorizer, the years-of-experience regex scanner and the AI evaluator) by
oracle parameters, since they live outside the two ranking files.
-/

namespace ResumeMatcher

/-- Model of Python `str.lower()` (`Char.toLower` is exactly the ASCII
lowering that `[A-Za-z]`-only inputs exercise). -/
def pyLower (s : String) : String := ⟨s.data.map Char.toLower⟩

/-- First character class of `_WORD_RE = [A-Za-z][A-Za-z0-9_\-+/#.]*`. -/
def isAsciiLetter (c : Char) : Bool :=
  (('A' ≤ c) && (c ≤ 'Z')) || (('a' ≤ c) && (c ≤ 'z'))

/-- Continuation character class of `_WORD_RE` (letters, digits and the
symbols `_ - + / # .`). -/
def isWordChar (c : Char) : Bool :=
  isAsciiLetter c || (('0' ≤ c) && (c ≤ '9')) ||
    (c == '_') || (c == '-') || (c == '+') || (c == '/') || (c == '#') || (c == '.')

/-- Left-to-right maximal-munch scan of `_WORD_RE.findall`: at a letter,
take the maximal run of word characters as one match and resume after it;
at any other character, advance one position.  The fuel argument (always
instantiated with the length of the list) keeps the recursion structural. -/
def findTokensF : ℕ → List Char → List (List Char)
  | 0, _ => []
  | _ + 1, [] => []
  | fuel + 1, c :: rest =>
    if isAsciiLetter c then
      (c :: rest.takeWhile isWordChar) :: findTokensF fuel (rest.dropWhile isWordChar)
    else
      findTokensF fuel rest

/-- All matches of `_WORD_RE` in a string, as `_WORD_RE.findall` returns them. -/
def word_re_findall (s : String) : List String :=
  (findTokensF s.data.length s.data).map (fun cs => ⟨cs⟩)

/-- Model of `s.replace("\x00", " ")` in `_normalize_text`. -/
def replaceNull (s : String) : String :=
  ⟨s.data.map (fun c => if c = '\x00' then ' ' else c)⟩

/-- Token list produced by `_normalize_text` before joining. -/
def normalize_text_tokens (s : String) : List String :=
  word_re_findall (pyLower (replaceNull s))

/-- Model of `_normalize_text`: lowercase, find all identifier-like runs,
join with single spaces. -/
def normalize_text (s : String) : String :=
  " ".intercalate (normalize_text_tokens s)

/-- Model of Python's substring test `needle in haystack`. -/
def strContains (haystack needle : String) : Bool :=
  (List.range (haystack.data.length + 1)).any
    (fun i => needle.data.isPrefixOf (haystack.data.drop i))

/-- Model of `_fuzzy_contains(haystack, needle, threshold)`.  The rapidfuzz
`fuzz.partial_ratio` call is an oracle parameter `pr`; the exact
case-insensitive substring branch short-circuits before it is consulted. -/
def fuzzy_contains (pr : String → String → ℚ) (haystack needle : String)
    (threshold : ℚ) : Bool :=
  if needle = "" then false
  else if strContains haystack (pyLower needle) then true
  else decide (threshold ≤ pr (pyLower needle) haystack)

/-- Model of `_match_skills`: each skill goes to the matched list when
`_fuzzy_contains` accepts it and to the missing list otherwise, preserving
input order. -/
def match_skills (pr : String → String → ℚ) (resume_text_norm : String)
    (skills : List String) (thresh : ℚ) : List String × List String :=
  (skills.filter (fun sk => fuzzy_contains pr resume_text_norm sk thresh),
   skills.filter (fun sk => !(fuzzy_contains pr resume_text_norm sk thresh)))

/-- Worker of `_dedup_keep_order`, carrying the set of lowercase keys
already seen. -/
def dedupGo (seen : List String) : List String → List String
  | [] => []
  | x :: rest =>
    if pyLower x ∈ seen then dedupGo seen rest
    else x :: dedupGo (pyLower x :: seen) rest

/-- Model of `_dedup_keep_order`: first-seen-wins deduplication keyed by
the lowercased string. -/
def dedup_keep_order (xs : List String) : List String := dedupGo [] xs

/-- Model of `_extract_years_of_experience`: the `YEARS_RE.finditer` scan is
an oracle giving the numeric values matched in the text; the code keeps the
running maximum (starting at 0) and caps it at 20. -/
def extract_years_of_experience (yearsMatches : String → List ℚ)
    (text : String) : ℚ :=
  min ((yearsMatches text).foldl max 0) 20

/-- Model of `_tfidf_cosine`: the sklearn vectorizer-plus-cosine is an
oracle returning `none` when it raises; the result is clamped to `[0,1]`
and is 0 when either normalized text is empty. -/
def tfidf_cosine (tf : String → String → Option ℚ)
    (jd_text resume_text : String) : ℚ :=
  let a := normalize_text jd_text
  let b := normalize_text resume_text
  if a = "" ∨ b = "" then 0
  else
    match tf a b with
    | none => 0
    | some sim => max 0 (min 1 sim)

/-- Model of `_get_excerpt`: whitespace-collapse then truncate. -/
def get_excerpt (text : String) (len : ℕ) : String :=
  (" ".intercalate ((text.split Char.isWhitespace).filter (fun x => !(x == "")))).take len

/-- Python `round(q, 2)` (modelled with Mathlib's `round`). -/
def round2 (q : ℚ) : ℚ := (round (q * 100) : ℤ) / 100

/-- Python `round(q, 4)` (modelled with Mathlib's `round`). -/
def round4 (q : ℚ) : ℚ := (round (q * 10000) : ℤ) / 10000

/-- Result dictionary of `_compute_prelim_score`. -/
structure PrelimResult where
  score : ℚ
  similarity : ℚ
  matched_skills : List String
  missing_skills : List String
  matched_nice_to_have : List String
  resume_excerpt : String
  match_rating : String
deriving DecidableEq

/-- Model of `_compute_prelim_score`: the fully offline weighted blend
(55% required coverage, 20% nice-to-have coverage, 20% TF-IDF cosine,
5% years-of-experience factor), always rated `Preliminary`. -/
def compute_prelim_score (pr : String → String → ℚ)
    (tf : String → String → Option ℚ) (yearsMatches : String → List ℚ)
    (jd_text : String) (jd_req_skills jd_nice_skills : List String)
    (resume_text : String) : PrelimResult :=
  let resume_text_norm := normalize_text resume_text
  let req := dedup_keep_order (jd_req_skills.filter (fun s => !(s == "")))
  let nice := dedup_keep_order (jd_nice_skills.filter (fun s => !(s == "")))
  let mm_req := match_skills pr resume_text_norm req 85
  let mm_nice := match_skills pr resume_text_norm nice 85
  let req_cov : ℚ := if 0 < req.length then (mm_req.1.length : ℚ) / (req.length : ℚ) else 0
  let nice_cov : ℚ := (mm_nice.1.length : ℚ) / ((max 1 nice.length : ℕ) : ℚ)
  let tfidf := tfidf_cosine tf jd_text resume_text
  let years := extract_years_of_experience yearsMatches resume_text
  let exp_factor : ℚ := min (years / 10) 1
  let score : ℚ := (0.55 * req_cov + 0.20 * nice_cov + 0.20 * tfidf + 0.05 * exp_factor) * 100
  { score := round2 score
    similarity := round4 tfidf
    matched_skills := mm_req.1
    missing_skills := mm_req.2
    matched_nice_to_have := mm_nice.1
    resume_excerpt := get_excerpt resume_text 600
    match_rating := "Preliminary" }

/-- Job description row: identifier, free text and the two skill lists.
The embedding column is not modelled; the cosine similarity of the two
embeddings is passed to the orchestrator as the value `sim` instead. -/
structure JobDescription where
  id : ℕ
  text : String
  required_skills : List String
  nice_to_have_skills : List String
deriving DecidableEq

/-- Stored per-job analysis record (the dict persisted under
`analysis_results["jd_<id>"]`).  `analyzed_at`/`similarity` are `none` for
the short-circuit record that carries neither key. -/
structure AnalysisRecord where
  score : ℚ
  match_rating : String
  matched_skills : List String
  missing_skills : List String
  rationale : String
  analyzed_at : Option String
  similarity : Option ℚ
deriving DecidableEq

/-- Resume row: free text, the skills list of `parsed_json` (empty when the
structured parse is absent) and the per-job analysis map, modelled as an
association list with dict update semantics. -/
structure Resume where
  id : ℕ
  text : String
  parsed_skills : List String
  analysis_results : List (String × AnalysisRecord)
deriving DecidableEq

/-- Outcome of one call to the external evaluator
`services.evaluate_candidate_for_jd`: either the returned dict (matched
list, missing list, optional rationale) or a raised exception. -/
inductive AIOutcome
  | ok (matched_skills missing_skills : List String) (rationale : Option String)
  | err
deriving DecidableEq

/-- Cache key `f"jd_{db_jd.id}"`. -/
def jdKey (id : ℕ) : String := "jd_" ++ toString id

/-- Model of `k.startswith("jd_")`. -/
def startsWithJd (k : String) : Bool := "jd_".data.isPrefixOf k.data

/-- Dict update `container[key] = v`: replace the entry for `key` in place,
or append it when absent. -/
def cacheSet : List (String × AnalysisRecord) → String → AnalysisRecord →
    List (String × AnalysisRecord)
  | [], k, v => [(k, v)]
  | (k', v') :: rest, k, v =>
    if k' = k then (k, v) :: rest else (k', v') :: cacheSet rest k v

/-- Concatenated skill lists `required_skills + nice_to_have_skills`, the
order in which the canonical-casing dict is built. -/
def jdAllSkills (jd : JobDescription) : List String :=
  jd.required_skills ++ jd.nice_to_have_skills

/-- Model of `canonical_map = {s.lower(): s for s in req + nice}` followed by
lookup: a Python dict comprehension keeps the last writer per key. -/
def canonical_map (skills : List String) (low : String) : Option String :=
  skills.reverse.find? (fun s => pyLower s == low)

/-- Worker of the matched-skill normalization loop, carrying the set of
lowercase keys already seen. -/
def normalizeMatchedGo (jdAll : List String) (seen : List String) :
    List String → List String
  | [] => []
  | s :: rest =>
    let low := pyLower s
    if low ∈ seen then normalizeMatchedGo jdAll seen rest
    else ((canonical_map jdAll low).getD s) :: normalizeMatchedGo jdAll (low :: seen) rest

/-- Normalization of the evaluator's matched list: deduplicate
case-insensitively (first occurrence kept) and project each skill back to
the canonical casing of the job's lists when possible. -/
def normalize_matched (jdAll : List String) (matched_ai : List String) : List String :=
  normalizeMatchedGo jdAll [] matched_ai

/-- The set `required_set_lower`, materialised in first-occurrence order. -/
def requiredLower (jd : JobDescription) : List String :=
  dedup_keep_order (jd.required_skills.map pyLower)

/-- The set `nice_set_lower`, materialised in first-occurrence order. -/
def niceLower (jd : JobDescription) : List String :=
  dedup_keep_order (jd.nice_to_have_skills.map pyLower)

/-- The set `matched_required_lower`: lowercased matched skills that are
required, materialised in first-occurrence order. -/
def matchedRequiredLower (jd : JobDescription) (matched_normalized : List String) :
    List String :=
  dedup_keep_order ((matched_normalized.map pyLower).filter
    (fun s => decide (s ∈ requiredLower jd)))

/-- The set `matched_nice_lower`, materialised in first-occurrence order. -/
def matchedNiceLower (jd : JobDescription) (matched_normalized : List String) :
    List String :=
  dedup_keep_order ((matched_normalized.map pyLower).filter
    (fun s => decide (s ∈ niceLower jd)))

/-- The locally recomputed `missing_required` list:
`required_set_lower − matched_required_lower`, each member projected through
`canonical_map` (the guard `if r in canonical_map` never fails for a
required skill). -/
def missingRequired (jd : JobDescription) (matched_normalized : List String) :
    List String :=
  ((requiredLower jd).filter
      (fun r => !(decide (r ∈ matchedRequiredLower jd matched_normalized)))).filterMap
    (canonical_map (jdAllSkills jd))

/-- Normalization, reconciliation and scoring tail of
`ensure_analysis_for_jd`, from `matched_ai` onwards: the 90/10 split score,
the Strong/Good/Weak thresholds and the assembled record. -/
def build_analysis (jd : JobDescription) (matched_ai : List String)
    (rationale : String) (sim : ℚ) (now : String) : AnalysisRecord :=
  let matched_normalized := normalize_matched (jdAllSkills jd) matched_ai
  let matched_required_count := (matchedRequiredLower jd matched_normalized).length
  let required_total := max (requiredLower jd).length 1
  let required_score : ℚ := (matched_required_count : ℚ) / (required_total : ℚ) * 90
  let nice_total := (niceLower jd).length
  let nice_score : ℚ :=
    if 0 < nice_total then
      ((matchedNiceLower jd matched_normalized).length : ℚ) / (nice_total : ℚ) * 10
    else 0
  let total_score := round2 (required_score + nice_score)
  let rating :=
    if 70 < total_score then "Strong"
    else if 35 < total_score then "Good"
    else "Weak"
  { score := total_score
    match_rating := rating
    matched_skills := matched_normalized
    missing_skills := missingRequired jd matched_normalized
    rationale := rationale
    analyzed_at := some now
    similarity := some (round4 sim) }

/-- The fallback matched-skill list used when the evaluator raises: the
parsed resume skills whose lowercase form lies in the union of the job's
skill lists. -/
def fallback_matched (parsed : List String) (jd : JobDescription) : List String :=
  parsed.filter (fun s => decide (pyLower s ∈ (jdAllSkills jd).map pyLower))

/-- The `ai_result` pair (matched skills, rationale) actually fed into
normalization: the skip-AI stub, the evaluator's output (with the default
rationale when it returns none), or the evaluator-failure fallback. -/
def aiResultFor (ai : AIOutcome) (skip_ai : Bool) (resume : Resume)
    (jd : JobDescription) : List String × String :=
  if skip_ai then ([], "Skipped AI (heuristic-only mode).")
  else
    match ai with
    | AIOutcome.ok matched _missing rat => (matched, rat.getD "No rationale provided.")
    | AIOutcome.err =>
      (fallback_matched resume.parsed_skills jd,
       "Fallback rationale: AI unavailable; matched skills derived from parsed resume only.")

/-- The short-circuit record returned when the job has no required skills. -/
def no_required_skills_record : AnalysisRecord :=
  { score := 0
    match_rating := "Weak"
    matched_skills := []
    missing_skills := []
    rationale := "Job description has no required skills defined."
    analyzed_at := none
    similarity := none }

/-- Model of `ensure_analysis_for_jd`.  `ai` is the behaviour the external
evaluator would exhibit if invoked on this call, `sim` the cosine similarity
of the two embeddings (0.0 when either is absent), `now` the timestamp.
Returns the record, the updated resume (its in-memory `analysis_results`
survives even when the database write fails) and whether the evaluator was
invoked. -/
def ensure_analysis_for_jd (ai : AIOutcome) (resume : Resume)
    (jd : JobDescription) (force skip_ai : Bool) (sim : ℚ) (now : String) :
    AnalysisRecord × Resume × Bool :=
  if jd.required_skills = [] then
    (no_required_skills_record, resume, false)
  else
    let key := jdKey jd.id
    let raw := resume.analysis_results
    let container := if raw.any (fun kv => startsWithJd kv.1) then raw else []
    match (if force then none else container.lookup key) with
    | some stored => (stored, resume, false)
    | none =>
      let aiRes := aiResultFor ai skip_ai resume jd
      let record := build_analysis jd aiRes.1 aiRes.2 sim now
      (record, { resume with analysis_results := cacheSet container key record }, !skip_ai)

/-- Ranking-row shape returned by `calculate_candidate_match`. -/
structure CandidateMatch where
  score : ℚ
  match_rating : String
  matched_skills : List String
  missing_skills : List String
  similarity : Option ℚ
deriving DecidableEq

/-- Model of `calculate_candidate_match`: project the stored per-job record
when present, else compute the offline preliminary score. -/
def calculate_candidate_match (pr : String → String → ℚ)
    (tf : String → String → Option ℚ) (yearsMatches : String → List ℚ)
    (resume : Resume) (jd : JobDescription) : CandidateMatch :=
  match resume.analysis_results.lookup (jdKey jd.id) with
  | some stored =>
    { score := stored.score
      match_rating := stored.match_rating
      matched_skills := stored.matched_skills
      missing_skills := stored.missing_skills
      similarity := stored.similarity }
  | none =>
    let prelim := compute_prelim_score pr tf yearsMatches jd.text
      jd.required_skills jd.nice_to_have_skills resume.text
    { score := prelim.score
      match_rating := prelim.match_rating
      matched_skills := prelim.matched_skills
      missing_skills := prelim.missing_skills
      similarity := some prelim.similarity }

/-- Response-row shape of the full-analysis endpoint. -/
structure DetailedCandidate where
  score : ℚ
  match_rating : String
  matched_skills : List String
  missing_skills : List String
  rationale : String
  similarity : Option ℚ
deriving DecidableEq

/-- Model of the per-resume `evaluate` closure of `full_analysis_for_jd`:
the semantic pre-filter skips the expensive evaluation (returning a
heuristic row) when similarity is below 0.15, force is off and no prior
record exists; otherwise it delegates to `ensure_analysis_for_jd`. -/
def full_analysis_evaluate (pr : String → String → ℚ)
    (tf : String → String → Option ℚ) (yearsMatches : String → List ℚ)
    (ai : AIOutcome) (resume : Resume) (jd : JobDescription) (force : Bool)
    (sim : ℚ) (now : String) : DetailedCandidate × Resume × Bool :=
  let key := jdKey jd.id
  let has_prior := (resume.analysis_results.lookup key).isSome
  if sim < 0.15 ∧ force = false ∧ has_prior = false then
    let prelim := calculate_candidate_match pr tf yearsMatches resume jd
    ({ score := prelim.score
       match_rating := "Preliminary"
       matched_skills := prelim.matched_skills
       missing_skills := prelim.missing_skills
       rationale := "Heuristic only (low similarity). Use force to run full AI analysis."
       similarity := some (round4 sim) }, resume, false)
  else
    let out := ensure_analysis_for_jd ai resume jd force false sim now
    ({ score := out.1.score
       match_rating := out.1.match_rating
       matched_skills := out.1.matched_skills
       missing_skills := out.1.missing_skills
       rationale := out.1.rationale
       similarity := out.1.similarity }, out.2.1, out.2.2)

/-- Argument shape accepted by the defensive `cosine_similarity` helper
after its coercions: `None`, a non-sequence value, or a sequence whose
elements are numeric (`some q`) or fail `float()` (`none`). -/
inductive PyVec
  | null
  | nonSeq
  | vec (xs : List (Option ℚ))
deriving DecidableEq

/-- Running value of `dot` over the zipped element pairs: pairs where
either side is non-numeric are skipped. -/
def dot_pairs : List (Option ℚ × Option ℚ) → ℚ
  | [] => 0
  | (some a, some b) :: rest => a * b + dot_pairs rest
  | _ :: rest => dot_pairs rest

/-- Running value of `sum_a` over the zipped element pairs. -/
def sum_a_pairs : List (Option ℚ × Option ℚ) → ℚ
  | [] => 0
  | (some a, some _) :: rest => a * a + sum_a_pairs rest
  | _ :: rest => sum_a_pairs rest

/-- Running value of `sum_b` over the zipped element pairs. -/
def sum_b_pairs : List (Option ℚ × Option ℚ) → ℚ
  | [] => 0
  | (some _, some b) :: rest => b * b + sum_b_pairs rest
  | _ :: rest => sum_b_pairs rest

/-- Model of the defensive `cosine_similarity(vec_a, vec_b)`: 0.0 for null,
non-sequence or empty inputs and for zero norms, otherwise the dot product
over the product of norms, pairing positionally up to the shorter length
(`zip`) and skipping non-numeric pairs. -/
noncomputable def cosine_similarity (vec_a vec_b : PyVec) : ℝ :=
  match vec_a, vec_b with
  | PyVec.vec xs, PyVec.vec ys =>
    if xs.length = 0 ∨ ys.length = 0 then 0
    else
      let pairs := xs.zip ys
      if sum_a_pairs pairs = 0 ∨ sum_b_pairs pairs = 0 then 0
      else (dot_pairs pairs : ℝ) /
        (Real.sqrt (sum_a_pairs pairs : ℚ) * Real.sqrt (sum_b_pairs pairs : ℚ))
  | _, _ => 0

/-- The case-insensitive skill set denoted by a list of labels: the finite
set of its lowercased members.  Used to state the claims that compare skill
collections "up to case". -/
def lowerFinset (xs : List String) : Finset String := (xs.map pyLower).toFinset

/-! ### Foundational lemmas about lowercasing and deduplication -/

theorem char_toNat_ofNat_valid (n : Nat) (h : n.isValidChar) :
    (Char.ofNat n).toNat = n := by
  unfold Char.ofNat
  rw [dif_pos h]
  unfold Char.ofNatAux Char.toNat
  simp [UInt32.toNat, BitVec.toNat_ofNatLt]

theorem char_toLower_of_not_upper (d : Char)
    (h : ¬(d.toNat ≥ 65 ∧ d.toNat ≤ 90)) : d.toLower = d := by
  unfold Char.toLower
  rw [if_neg h]

theorem char_toLower_toLower (c : Char) : c.toLower.toLower = c.toLower := by
  by_cases h : c.toNat ≥ 65 ∧ c.toNat ≤ 90
  · have h1 : Char.toLower c = Char.ofNat (c.toNat + 32) := by
      unfold Char.toLower
      rw [if_pos h]
    have hv : (c.toNat + 32).isValidChar := by
      left
      have := h.2
      omega
    have h2 : (Char.toLower c).toNat = c.toNat + 32 := by
      rw [h1]
      exact char_toNat_ofNat_valid _ hv
    apply char_toLower_of_not_upper
    rw [h2]
    omega
  · rw [char_toLower_of_not_upper c h, char_toLower_of_not_upper c h]

theorem pyLower_pyLower (s : String) : pyLower (pyLower s) = pyLower s := by
  unfold pyLower
  congr 1
  rw [List.map_map]
  exact List.map_congr_left (fun c _ => char_toLower_toLower c)

theorem mem_dedupGo_subset {x : String} {seen xs : List String}
    (h : x ∈ dedupGo seen xs) : x ∈ xs := by
  induction xs generalizing seen with
  | nil => simp [dedupGo] at h
  | cons y rest ih =>
    rw [dedupGo] at h
    split at h
    · exact List.mem_cons_of_mem _ (ih h)
    · rcases List.mem_cons.mp h with h' | h'
      · exact h' ▸ List.mem_cons_self _ _
      · exact List.mem_cons_of_mem _ (ih h')

theorem mem_lowerFinset {y : String} {xs : List String} :
    y ∈ lowerFinset xs ↔ ∃ x ∈ xs, pyLower x = y := by
  simp [lowerFinset]

theorem lowerFinset_dedupGo (seen xs : List String) :
    lowerFinset (dedupGo seen xs) = lowerFinset xs \ seen.toFinset := by
  induction xs generalizing seen with
  | nil => simp [dedupGo, lowerFinset]
  | cons x rest ih =>
    rw [dedupGo]
    split
    · rename_i h
      ext y
      rw [ih]
      simp only [lowerFinset, List.map_cons, List.toFinset_cons, Finset.mem_sdiff,
        Finset.mem_insert, List.mem_toFinset]
      constructor
      · rintro ⟨hy, hns⟩
        exact ⟨Or.inr hy, hns⟩
      · rintro ⟨hy | hy, hns⟩
        · exact absurd (hy ▸ h) hns
        · exact ⟨hy, hns⟩
    · rename_i h
      have hih := Finset.ext_iff.mp (ih (pyLower x :: seen))
      ext y
      have hy := hih y
      simp only [lowerFinset, List.map_cons, List.toFinset_cons, Finset.mem_sdiff,
        Finset.mem_insert, List.mem_toFinset] at hy ⊢
      constructor
      · rintro (rfl | hmem)
        · exact ⟨Or.inl rfl, h⟩
        · rcases hy.mp hmem with ⟨hrest, hns⟩
          push_neg at hns
          exact ⟨Or.inr hrest, hns.2⟩
      · rintro ⟨rfl | hrest, hns⟩
        · exact Or.inl rfl
        · by_cases hx : y = pyLower x
          · exact Or.inl hx
          · exact Or.inr (hy.mpr ⟨hrest, by push_neg; exact ⟨hx, hns⟩⟩)

theorem lowerFinset_dedup_keep_order (xs : List String) :
    lowerFinset (dedup_keep_order xs) = lowerFinset xs := by
  rw [dedup_keep_order, lowerFinset_dedupGo]
  simp

theorem pyLower_fixed_of_mem_map {x : String} {xs : List String}
    (h : x ∈ xs.map pyLower) : pyLower x = x := by
  rcases List.mem_map.mp h with ⟨y, _, rfl⟩
  exact pyLower_pyLower y

theorem toFinset_eq_lowerFinset_of_lowered {xs : List String}
    (h : ∀ x ∈ xs, pyLower x = x) : xs.toFinset = lowerFinset xs := by
  unfold lowerFinset
  rw [show xs.map pyLower = xs from
    (List.map_congr_left h : xs.map pyLower = xs.map id).trans (List.map_id xs)]

/-! ### Lemmas about canonicalization and the reconciliation step -/

theorem canonical_map_some {skills : List String} {low s : String}
    (h : canonical_map skills low = some s) : pyLower s = low ∧ s ∈ skills := by
  unfold canonical_map at h
  have hp := List.find?_some h
  have hm := List.mem_of_find?_eq_some h
  exact ⟨by simpa using hp, List.mem_reverse.mp hm⟩

theorem canonical_map_isSome {skills : List String} {low : String}
    (h : ∃ x ∈ skills, pyLower x = low) : (canonical_map skills low).isSome := by
  unfold canonical_map
  rw [List.find?_isSome]
  rcases h with ⟨x, hx, hl⟩
  exact ⟨x, List.mem_reverse.mpr hx, by simpa using hl⟩

theorem lowerFinset_normalizeMatchedGo (jdAll : List String) (seen xs : List String) :
    lowerFinset (normalizeMatchedGo jdAll seen xs) = lowerFinset xs \ seen.toFinset := by
  induction xs generalizing seen with
  | nil => simp [normalizeMatchedGo, lowerFinset]
  | cons x rest ih =>
    rw [normalizeMatchedGo]
    split
    · rename_i h
      rw [ih]
      ext y
      simp only [lowerFinset, List.map_cons, List.toFinset_cons, Finset.mem_sdiff,
        Finset.mem_insert, List.mem_toFinset]
      constructor
      · rintro ⟨hy, hns⟩
        exact ⟨Or.inr hy, hns⟩
      · rintro ⟨hy | hy, hns⟩
        · exact absurd (hy ▸ h) hns
        · exact ⟨hy, hns⟩
    · rename_i h
      have hkept : pyLower ((canonical_map jdAll (pyLower x)).getD x) = pyLower x := by
        cases hc : canonical_map jdAll (pyLower x) with
        | none => simp [hc]
        | some s =>
          have := canonical_map_some hc
          simp [hc, this.1]
      have hih := Finset.ext_iff.mp (ih (pyLower x :: seen))
      ext y
      have hy := hih y
      simp only [lowerFinset, List.map_cons, List.toFinset_cons, Finset.mem_sdiff,
        Finset.mem_insert, List.mem_toFinset] at hy ⊢
      rw [hkept]
      constructor
      · rintro (rfl | hmem)
        · exact ⟨Or.inl rfl, h⟩
        · rcases hy.mp hmem with ⟨hrest, hns⟩
          push_neg at hns
          exact ⟨Or.inr hrest, hns.2⟩
      · rintro ⟨rfl | hrest, hns⟩
        · exact Or.inl rfl
        · by_cases hx : y = pyLower x
          · exact Or.inl hx
          · exact Or.inr (hy.mpr ⟨hrest, by push_neg; exact ⟨hx, hns⟩⟩)

theorem lowerFinset_normalize_matched (jdAll xs : List String) :
    lowerFinset (normalize_matched jdAll xs) = lowerFinset xs := by
  rw [normalize_matched, lowerFinset_normalizeMatchedGo]
  simp

theorem requiredLower_lowered {jd : JobDescription} {r : String}
    (h : r ∈ requiredLower jd) : pyLower r = r :=
  pyLower_fixed_of_mem_map (mem_dedupGo_subset h)

theorem niceLower_lowered {jd : JobDescription} {r : String}
    (h : r ∈ niceLower jd) : pyLower r = r :=
  pyLower_fixed_of_mem_map (mem_dedupGo_subset h)

theorem requiredLower_toFinset (jd : JobDescription) :
    (requiredLower jd).toFinset = lowerFinset jd.required_skills := by
  rw [toFinset_eq_lowerFinset_of_lowered (fun x hx => requiredLower_lowered hx)]
  rw [requiredLower, lowerFinset_dedup_keep_order]
  unfold lowerFinset
  congr 1
  rw [List.map_congr_left (fun x hx => pyLower_fixed_of_mem_map hx)]
  exact List.map_id _

theorem niceLower_toFinset (jd : JobDescription) :
    (niceLower jd).toFinset = lowerFinset jd.nice_to_have_skills := by
  rw [toFinset_eq_lowerFinset_of_lowered (fun x hx => niceLower_lowered hx)]
  rw [niceLower, lowerFinset_dedup_keep_order]
  unfold lowerFinset
  congr 1
  rw [List.map_congr_left (fun x hx => pyLower_fixed_of_mem_map hx)]
  exact List.map_id _

theorem matchedRequiredLower_lowered {jd : JobDescription} {ms : List String}
    {r : String} (h : r ∈ matchedRequiredLower jd ms) : pyLower r = r := by
  have := mem_dedupGo_subset h
  exact pyLower_fixed_of_mem_map (List.mem_of_mem_filter this)

theorem matchedRequiredLower_toFinset (jd : JobDescription) (ms : List String) :
    (matchedRequiredLower jd ms).toFinset =
      lowerFinset ms ∩ lowerFinset jd.required_skills := by
  rw [toFinset_eq_lowerFinset_of_lowered (fun x hx => matchedRequiredLower_lowered hx)]
  rw [matchedRequiredLower, lowerFinset_dedup_keep_order]
  ext y
  simp only [mem_lowerFinset, Finset.mem_inter, List.mem_filter, List.mem_map,
    decide_eq_true_eq]
  constructor
  · rintro ⟨x, ⟨⟨z, hz, rfl⟩, hreq⟩, rfl⟩
    refine ⟨⟨z, hz, (pyLower_pyLower z).symm⟩, ?_⟩
    have : pyLower (pyLower z) ∈ (requiredLower jd).toFinset := by
      rw [pyLower_pyLower]
      exact List.mem_toFinset.mpr hreq
    rw [requiredLower_toFinset] at this
    simpa [mem_lowerFinset, pyLower_pyLower] using this
  · rintro ⟨⟨z, hz, rfl⟩, hreq⟩
    refine ⟨pyLower z, ⟨⟨z, hz, rfl⟩, ?_⟩, pyLower_pyLower z⟩
    have : pyLower z ∈ lowerFinset jd.required_skills := by
      simpa [mem_lowerFinset] using hreq
    rw [← requiredLower_toFinset] at this
    exact List.mem_toFinset.mp this

theorem matchedNiceLower_lowered {jd : JobDescription} {ms : List String}
    {r : String} (h : r ∈ matchedNiceLower jd ms) : pyLower r = r := by
  have := mem_dedupGo_subset h
  exact pyLower_fixed_of_mem_map (List.mem_of_mem_filter this)

theorem matchedNiceLower_toFinset (jd : JobDescription) (ms : List String) :
    (matchedNiceLower jd ms).toFinset =
      lowerFinset ms ∩ lowerFinset jd.nice_to_have_skills := by
  rw [toFinset_eq_lowerFinset_of_lowered (fun x hx => matchedNiceLower_lowered hx)]
  rw [matchedNiceLower, lowerFinset_dedup_keep_order]
  ext y
  simp only [mem_lowerFinset, Finset.mem_inter, List.mem_filter, List.mem_map,
    decide_eq_true_eq]
  constructor
  · rintro ⟨x, ⟨⟨z, hz, rfl⟩, hreq⟩, rfl⟩
    refine ⟨⟨z, hz, (pyLower_pyLower z).symm⟩, ?_⟩
    have : pyLower (pyLower z) ∈ (niceLower jd).toFinset := by
      rw [pyLower_pyLower]
      exact List.mem_toFinset.mpr hreq
    rw [niceLower_toFinset] at this
    simpa [mem_lowerFinset, pyLower_pyLower] using this
  · rintro ⟨⟨z, hz, rfl⟩, hreq⟩
    refine ⟨pyLower z, ⟨⟨z, hz, rfl⟩, ?_⟩, pyLower_pyLower z⟩
    have : pyLower z ∈ lowerFinset jd.nice_to_have_skills := by
      simpa [mem_lowerFinset] using hreq
    rw [← niceLower_toFinset] at this
    exact List.mem_toFinset.mp this

theorem filterMap_canonical_map_pyLower {jdAll : List String} {rs : List String}
    (h : ∀ r ∈ rs, ∃ x ∈ jdAll, pyLower x = r) :
    (rs.filterMap (canonical_map jdAll)).map pyLower = rs := by
  induction rs with
  | nil => simp
  | cons r rest ih =>
    have hr := h r (List.mem_cons_self _ _)
    have hsome := canonical_map_isSome hr
    cases hc : canonical_map jdAll r with
    | none => rw [hc] at hsome; simp at hsome
    | some s =>
      have := canonical_map_some hc
      rw [List.filterMap_cons_some hc]
      simp only [List.map_cons, this.1]
      rw [ih (fun r' hr' => h r' (List.mem_cons_of_mem _ hr'))]

theorem missingRequired_map_pyLower (jd : JobDescription) (ms : List String) :
    (missingRequired jd ms).map pyLower =
      (requiredLower jd).filter
        (fun r => !(decide (r ∈ matchedRequiredLower jd ms))) := by
  unfold missingRequired
  apply filterMap_canonical_map_pyLower
  intro r hr
  have hreq : r ∈ requiredLower jd := List.mem_of_mem_filter hr
  have : r ∈ (requiredLower jd).toFinset := List.mem_toFinset.mpr hreq
  rw [requiredLower_toFinset] at this
  rcases mem_lowerFinset.mp this with ⟨x, hx, rfl⟩
  exact ⟨x, List.mem_append_left _ hx, rfl⟩

/-! ### Lemmas about the analysis cache -/

theorem lookup_cacheSet_self (c : List (String × AnalysisRecord)) (k : String)
    (v : AnalysisRecord) : (cacheSet c k v).lookup k = some v := by
  induction c with
  | nil => simp [cacheSet, List.lookup]
  | cons kv rest ih =>
    rcases kv with ⟨k', v'⟩
    rw [cacheSet]
    split
    · simp [List.lookup]
    · rename_i hne
      rw [List.lookup_cons]
      have : (k == k') = false := by
        simp only [beq_eq_false_iff_ne, ne_eq]
        exact fun hc => hne hc.symm
      rw [this]
      exact ih

theorem lookup_cacheSet_ne (c : List (String × AnalysisRecord)) (k k' : String)
    (v : AnalysisRecord) (h : k' ≠ k) :
    (cacheSet c k v).lookup k' = c.lookup k' := by
  induction c with
  | nil =>
    have hf : (k' == k) = false := by
      simp only [beq_eq_false_iff_ne, ne_eq]
      exact h
    simp [cacheSet, List.lookup, hf]
  | cons kv rest ih =>
    rcases kv with ⟨k₀, v₀⟩
    rw [cacheSet]
    split
    · rename_i heq
      subst heq
      rw [List.lookup_cons, List.lookup_cons]
      have hf : (k' == k₀) = false := by
        simp only [beq_eq_false_iff_ne, ne_eq]
        exact h
      rw [hf]
    · rw [List.lookup_cons, List.lookup_cons]
      cases hbe : (k' == k₀) with
      | true => rfl
      | false => exact ih

theorem isPrefixOf_append_self (l₁ l₂ : List Char) :
    l₁.isPrefixOf (l₁ ++ l₂) = true := by
  induction l₁ with
  | nil => simp [List.isPrefixOf]
  | cons c rest ih => simp [List.isPrefixOf]

theorem startsWithJd_jdKey (n : ℕ) : startsWithJd (jdKey n) = true := by
  unfold startsWithJd jdKey
  rw [String.data_append]
  exact isPrefixOf_append_self _ _

theorem any_startsWithJd_cacheSet (c : List (String × AnalysisRecord)) (n : ℕ)
    (v : AnalysisRecord) :
    (cacheSet c (jdKey n) v).any (fun kv => startsWithJd kv.1) = true := by
  induction c with
  | nil => simp [cacheSet, startsWithJd_jdKey]
  | cons kv rest ih =>
    rcases kv with ⟨k₀, v₀⟩
    rw [cacheSet]
    split
    · simp [startsWithJd_jdKey]
    · simpa using Or.inr (by simpa using ih)

theorem lookup_isSome_any_startsWithJd {c : List (String × AnalysisRecord)} {n : ℕ}
    (h : (c.lookup (jdKey n)).isSome) :
    c.any (fun kv => startsWithJd kv.1) = true := by
  induction c with
  | nil => simp [List.lookup] at h
  | cons kv rest ih =>
    rcases kv with ⟨k₀, v₀⟩
    rw [List.lookup_cons] at h
    cases hbe : (jdKey n == k₀) with
    | true =>
      have : k₀ = jdKey n := (eq_of_beq hbe).symm
      simp [this, startsWithJd_jdKey]
    | false =>
      rw [hbe] at h
      simpa using Or.inr (by simpa using ih h)

theorem container_lookup_eq (raw : List (String × AnalysisRecord)) (n : ℕ) :
    (if raw.any (fun kv => startsWithJd kv.1) then raw else []).lookup (jdKey n) =
      raw.lookup (jdKey n) := by
  split
  · rfl
  · rename_i h
    cases hl : raw.lookup (jdKey n) with
    | none => simp [List.lookup]
    | some v =>
      exact absurd (lookup_isSome_any_startsWithJd (by rw [hl]; rfl)) h

/-! ### Helper lemmas about the orchestrator -/

theorem dedup_keep_order_nil_iff (xs : List String) :
    dedup_keep_order xs = [] ↔ xs = [] := by
  cases xs with
  | nil => simp [dedup_keep_order, dedupGo]
  | cons x rest => simp [dedup_keep_order, dedupGo]

theorem niceLower_nil_iff (jd : JobDescription) :
    niceLower jd = [] ↔ jd.nice_to_have_skills = [] := by
  rw [niceLower, dedup_keep_order_nil_iff, List.map_eq_nil_iff]

/-- In the fresh case (forced, or no prior record under the job's key) the
record returned by `ensure_analysis_for_jd` is the one assembled by
`build_analysis` from the evaluator interaction. -/
theorem ensure_fresh_record (ai : AIOutcome) (resume : Resume)
    (jd : JobDescription) (force skip_ai : Bool) (sim : ℚ) (now : String)
    (hreq : jd.required_skills ≠ [])
    (hfresh : force = true ∨ resume.analysis_results.lookup (jdKey jd.id) = none) :
    (ensure_analysis_for_jd ai resume jd force skip_ai sim now).1 =
        build_analysis jd (aiResultFor ai skip_ai resume jd).1
          (aiResultFor ai skip_ai resume jd).2 sim now ∧
    (ensure_analysis_for_jd ai resume jd force skip_ai sim now).2.1.analysis_results =
        cacheSet
          (if resume.analysis_results.any (fun kv => startsWithJd kv.1)
            then resume.analysis_results else [])
          (jdKey jd.id)
          (build_analysis jd (aiResultFor ai skip_ai resume jd).1
            (aiResultFor ai skip_ai resume jd).2 sim now) ∧
    (ensure_analysis_for_jd ai resume jd force skip_ai sim now).2.2 = !skip_ai := by
  unfold ensure_analysis_for_jd
  rw [if_neg hreq]
  rcases hfresh with rfl | hl
  · refine ⟨?_, ?_, ?_⟩ <;> trivial
  · cases force with
    | true => refine ⟨?_, ?_, ?_⟩ <;> trivial
    | false =>
      have hnone : (if resume.analysis_results.any (fun kv => startsWithJd kv.1)
          then resume.analysis_results else []).lookup (jdKey jd.id) = none := by
        rw [container_lookup_eq]
        exact hl
      simp only [Bool.false_eq_true, if_false, hnone]
      refine ⟨?_, ?_, ?_⟩ <;> trivial

/-- The Strong/Good/Weak band of the rating conditional, characterised by
the two strict cuts. -/
theorem rating_ite_spec (T : ℚ) :
    ((if 70 < T then "Strong" else if 35 < T then "Good" else "Weak") = "Strong"
        ↔ 70 < T)
  ∧ ((if 70 < T then "Strong" else if 35 < T then "Good" else "Weak") = "Good"
        ↔ 35 < T ∧ T ≤ 70)
  ∧ ((if 70 < T then "Strong" else if 35 < T then "Good" else "Weak") = "Weak"
        ↔ T ≤ 35) := by
  by_cases h1 : 70 < T
  · have h2 : 35 < T := by linarith
    simp only [if_pos h1]
    refine ⟨by simp [h1], ?_, ?_⟩
    · constructor
      · intro h
        exact absurd h (by decide)
      · rintro ⟨-, hle⟩
        exact absurd h1 (not_lt.mpr hle)
    · constructor
      · intro h
        exact absurd h (by decide)
      · intro hle
        exact absurd h1 (not_lt.mpr (hle.trans (by norm_num)))
  · rw [if_neg h1]
    by_cases h2 : 35 < T
    · simp only [if_pos h2]
      refine ⟨?_, ?_, ?_⟩
      · constructor
        · intro h
          exact absurd h (by decide)
        · intro h
          exact absurd h h1
      · simp [h2, not_lt.mp h1]
      · constructor
        · intro h
          exact absurd h (by decide)
        · intro hle
          exact absurd h2 (not_lt.mpr hle)
    · rw [if_neg h2]
      refine ⟨?_, ?_, ?_⟩
      · constructor
        · intro h
          exact absurd h (by decide)
        · intro h
          exact absurd h h1
      · constructor
        · intro h
          exact absurd h (by decide)
        · rintro ⟨h, -⟩
          exact absurd h h2
      · simp [not_lt.mp h2]

theorem build_analysis_rating_eq (jd : JobDescription) (m : List String)
    (rat : String) (sim : ℚ) (now : String) :
    (build_analysis jd m rat sim now).match_rating =
      (if 70 < (build_analysis jd m rat sim now).score then "Strong"
       else if 35 < (build_analysis jd m rat sim now).score then "Good"
       else "Weak") := rfl

theorem build_analysis_score_eq (jd : JobDescription) (m : List String)
    (rat : String) (sim : ℚ) (now : String) :
    (build_analysis jd m rat sim now).score =
      round2
        (((matchedRequiredLower jd (normalize_matched (jdAllSkills jd) m)).length : ℚ) /
            ((max 1 (requiredLower jd).length : ℕ) : ℚ) * 90 +
          (if jd.nice_to_have_skills ≠ [] then
            ((matchedNiceLower jd (normalize_matched (jdAllSkills jd) m)).length : ℚ) /
              (((niceLower jd).length : ℕ) : ℚ) * 10
          else 0)) := by
  show round2 _ = round2 _
  congr 2
  · rw [Nat.max_comm]
  · by_cases hn : jd.nice_to_have_skills = []
    · have : niceLower jd = [] := (niceLower_nil_iff jd).mpr hn
      rw [if_neg (by simp [this]), if_neg (by simp [hn])]
    · have : niceLower jd ≠ [] := fun hc => hn ((niceLower_nil_iff jd).mp hc)
      rw [if_pos (List.length_pos.mpr this), if_pos hn]

theorem lowerFinset_missingRequired (jd : JobDescription) (ms : List String) :
    lowerFinset (missingRequired jd ms) =
      lowerFinset jd.required_skills \ (matchedRequiredLower jd ms).toFinset := by
  have h1 : lowerFinset (missingRequired jd ms) =
      ((requiredLower jd).filter
        (fun r => !(decide (r ∈ matchedRequiredLower jd ms)))).toFinset := by
    unfold lowerFinset
    rw [missingRequired_map_pyLower]
  rw [h1, ← requiredLower_toFinset]
  ext y
  simp only [List.mem_toFinset, List.mem_filter, Finset.mem_sdiff,
    Bool.not_eq_true', decide_eq_false_iff_not]

/-! ### Claim theorems -/

/-- Claim C1: for every candidate and every job with a non-empty
required-skill list, the record produced by the high-fidelity path of
`ensure_analysis_for_jd` (forced, or no cached record for the job's key) has
score `round((matchedRequiredCount / max(1, requiredCount)) * 90 + niceScore, 2)`
where `niceScore = (matchedNiceCount / niceCount) * 10` when the job has
nice-to-have skills and 0 otherwise; its rating is Strong iff score > 70,
Good iff 35 < score ≤ 70 and Weak iff score ≤ 35 — in particular a total of
exactly 70.00 is rated Good and exactly 35.00 is rated Weak. -/
theorem C1_high_fidelity_score_and_rating (ai : AIOutcome) (resume : Resume)
    (jd : JobDescription) (force skip_ai : Bool) (sim : ℚ) (now : String)
    (hreq : jd.required_skills ≠ [])
    (hfresh : force = true ∨ resume.analysis_results.lookup (jdKey jd.id) = none) :
    (ensure_analysis_for_jd ai resume jd force skip_ai sim now).1.score =
      round2
        (((matchedRequiredLower jd (normalize_matched (jdAllSkills jd)
              (aiResultFor ai skip_ai resume jd).1)).length : ℚ) /
            ((max 1 (requiredLower jd).length : ℕ) : ℚ) * 90 +
          (if jd.nice_to_have_skills ≠ [] then
            ((matchedNiceLower jd (normalize_matched (jdAllSkills jd)
                (aiResultFor ai skip_ai resume jd).1)).length : ℚ) /
              (((niceLower jd).length : ℕ) : ℚ) * 10
          else 0))
    ∧ ((ensure_analysis_for_jd ai resume jd force skip_ai sim now).1.match_rating = "Strong"
        ↔ 70 < (ensure_analysis_for_jd ai resume jd force skip_ai sim now).1.score)
    ∧ ((ensure_analysis_for_jd ai resume jd force skip_ai sim now).1.match_rating = "Good"
        ↔ 35 < (ensure_analysis_for_jd ai resume jd force skip_ai sim now).1.score ∧
          (ensure_analysis_for_jd ai resume jd force skip_ai sim now).1.score ≤ 70)
    ∧ ((ensure_analysis_for_jd ai resume jd force skip_ai sim now).1.match_rating = "Weak"
        ↔ (ensure_analysis_for_jd ai resume jd force skip_ai sim now).1.score ≤ 35)
    ∧ ((ensure_analysis_for_jd ai resume jd force skip_ai sim now).1.score = 70 →
        (ensure_analysis_for_jd ai resume jd force skip_ai sim now).1.match_rating = "Good")
    ∧ ((ensure_analysis_for_jd ai resume jd force skip_ai sim now).1.score = 35 →
        (ensure_analysis_for_jd ai resume jd force skip_ai sim now).1.match_rating = "Weak") := by
  obtain ⟨h1, -, -⟩ := ensure_fresh_record ai resume jd force skip_ai sim now hreq hfresh
  rw [h1]
  obtain ⟨hs, hg, hw⟩ := rating_ite_spec ((build_analysis jd
    (aiResultFor ai skip_ai resume jd).1 (aiResultFor ai skip_ai resume jd).2 sim now).score)
  refine ⟨build_analysis_score_eq jd _ _ sim now, ?_, ?_, ?_, ?_, ?_⟩
  · rw [build_analysis_rating_eq]
    exact hs
  · rw [build_analysis_rating_eq]
    exact hg
  · rw [build_analysis_rating_eq]
    exact hw
  · intro h70
    rw [build_analysis_rating_eq, h70]
    norm_num
  · intro h35
    rw [build_analysis_rating_eq, h35]
    norm_num

/-- Witness for C1 at a concrete (candidate, job) pair. -/
theorem C1_high_fidelity_score_and_rating_witness :
    (ensure_analysis_for_jd (AIOutcome.ok ["Python"] [] none)
        ⟨1, "", [], []⟩ ⟨1, "", ["Python"], []⟩ false false 0 "t").1.match_rating = "Strong"
      ↔ 70 < (ensure_analysis_for_jd (AIOutcome.ok ["Python"] [] none)
        ⟨1, "", [], []⟩ ⟨1, "", ["Python"], []⟩ false false 0 "t").1.score :=
  (C1_high_fidelity_score_and_rating (AIOutcome.ok ["Python"] [] none)
    ⟨1, "", [], []⟩ ⟨1, "", ["Python"], []⟩ false false 0 "t"
    (by decide) (Or.inr rfl)).2.1

/-- Claim C2: the heuristic preliminary score equals
`round(100 * (0.55*requiredCoverage + 0.20*niceCoverage + 0.20*lexicalSimilarity
+ 0.05*experienceFactor), 2)`, where required coverage is the matched
fraction over case-insensitively deduplicated required skills (0 when none
are defined), nice coverage divides by `max(1, niceCount)`, the experience
years value is the maximum regex match capped at 20 with
`experienceFactor = min(years/10, 1)`, and the rating is always
Preliminary. -/
theorem C2_prelim_score_formula (pr : String → String → ℚ)
    (tf : String → String → Option ℚ) (yearsMatches : String → List ℚ)
    (jd_text : String) (jd_req_skills jd_nice_skills : List String)
    (resume_text : String) :
    (compute_prelim_score pr tf yearsMatches jd_text jd_req_skills jd_nice_skills
        resume_text).score =
      round2 (100 *
        (0.55 * (if dedup_keep_order (jd_req_skills.filter (fun s => !(s == ""))) = []
            then 0
            else ((match_skills pr (normalize_text resume_text)
                (dedup_keep_order (jd_req_skills.filter (fun s => !(s == "")))) 85).1.length : ℚ) /
              ((dedup_keep_order (jd_req_skills.filter (fun s => !(s == "")))).length : ℚ)) +
          0.20 * (((match_skills pr (normalize_text resume_text)
              (dedup_keep_order (jd_nice_skills.filter (fun s => !(s == "")))) 85).1.length : ℚ) /
            ((max 1 (dedup_keep_order (jd_nice_skills.filter (fun s => !(s == "")))).length : ℕ) : ℚ)) +
          0.20 * tfidf_cosine tf jd_text resume_text +
          0.05 * min (extract_years_of_experience yearsMatches resume_text / 10) 1))
    ∧ (compute_prelim_score pr tf yearsMatches jd_text jd_req_skills jd_nice_skills
        resume_text).match_rating = "Preliminary"
    ∧ extract_years_of_experience yearsMatches resume_text ≤ 20 := by
  refine ⟨?_, rfl, min_le_right _ _⟩
  show round2 _ = round2 _
  have hcov : (if 0 < (dedup_keep_order (jd_req_skills.filter (fun s => !(s == "")))).length
      then ((match_skills pr (normalize_text resume_text)
          (dedup_keep_order (jd_req_skills.filter (fun s => !(s == "")))) 85).1.length : ℚ) /
        ((dedup_keep_order (jd_req_skills.filter (fun s => !(s == "")))).length : ℚ)
      else 0) =
      (if dedup_keep_order (jd_req_skills.filter (fun s => !(s == ""))) = []
      then 0
      else ((match_skills pr (normalize_text resume_text)
          (dedup_keep_order (jd_req_skills.filter (fun s => !(s == "")))) 85).1.length : ℚ) /
        ((dedup_keep_order (jd_req_skills.filter (fun s => !(s == "")))).length : ℚ)) := by
    by_cases h : dedup_keep_order (jd_req_skills.filter (fun s => !(s == ""))) = []
    · rw [if_pos h, if_neg (by simp [h])]
    · rw [if_pos (List.length_pos.mpr h), if_neg h]
  rw [hcov]
  ring_nf

/-- Claim C3: on both scoring paths the matched-required and
missing-required outputs partition the required skills (up to case for the
high-fidelity path), and the missing-required list is always recomputed
locally, independent of the external evaluator's own missing output. -/
theorem C3_partition_invariant (pr : String → String → ℚ) (norm : String)
    (skills : List String) (thresh : ℚ) (jd : JobDescription) (m : List String)
    (rat : String) (sim : ℚ) (now : String) (ai_matched miss1 miss2 : List String)
    (rat' : Option String) (resume : Resume) (force skip_ai : Bool) :
    ((match_skills pr norm skills thresh).1.toFinset ∪
        (match_skills pr norm skills thresh).2.toFinset = skills.toFinset
    ∧ (match_skills pr norm skills thresh).1.toFinset ∩
        (match_skills pr norm skills thresh).2.toFinset = ∅)
    ∧ ((lowerFinset (build_analysis jd m rat sim now).matched_skills ∩
          lowerFinset jd.required_skills) ∪
        lowerFinset (build_analysis jd m rat sim now).missing_skills =
          lowerFinset jd.required_skills
    ∧ (lowerFinset (build_analysis jd m rat sim now).matched_skills ∩
          lowerFinset jd.required_skills) ∩
        lowerFinset (build_analysis jd m rat sim now).missing_skills = ∅)
    ∧ (build_analysis jd m rat sim now).missing_skills =
        missingRequired jd (normalize_matched (jdAllSkills jd) m)
    ∧ (ensure_analysis_for_jd (AIOutcome.ok ai_matched miss1 rat') resume jd
          force skip_ai sim now).1.missing_skills =
        (ensure_analysis_for_jd (AIOutcome.ok ai_matched miss2 rat') resume jd
          force skip_ai sim now).1.missing_skills := by
  refine ⟨⟨?_, ?_⟩, ⟨?_, ?_⟩, rfl, rfl⟩
  · ext x
    simp only [match_skills, Finset.mem_union, List.mem_toFinset, List.mem_filter,
      Bool.not_eq_true']
    constructor
    · rintro (⟨hx, -⟩ | ⟨hx, -⟩) <;> exact hx
    · intro hx
      cases hfc : fuzzy_contains pr norm x thresh with
      | true => exact Or.inl ⟨hx, rfl⟩
      | false => exact Or.inr ⟨hx, rfl⟩
  · ext x
    simp only [match_skills, Finset.mem_inter, List.mem_toFinset, List.mem_filter,
      Bool.not_eq_true', Finset.not_mem_empty, iff_false]
    rintro ⟨⟨-, htrue⟩, ⟨-, hfalse⟩⟩
    rw [htrue] at hfalse
    exact absurd hfalse (by decide)
  · have hmiss : lowerFinset (build_analysis jd m rat sim now).missing_skills =
        lowerFinset jd.required_skills \
          (matchedRequiredLower jd (normalize_matched (jdAllSkills jd) m)).toFinset :=
      lowerFinset_missingRequired jd _
    have hmatched : (matchedRequiredLower jd (normalize_matched (jdAllSkills jd) m)).toFinset =
        lowerFinset (build_analysis jd m rat sim now).matched_skills ∩
          lowerFinset jd.required_skills :=
      matchedRequiredLower_toFinset jd _
    rw [hmiss, ← hmatched]
    exact Finset.union_sdiff_of_subset (by
      rw [hmatched]
      exact Finset.inter_subset_right)
  · have hmiss : lowerFinset (build_analysis jd m rat sim now).missing_skills =
        lowerFinset jd.required_skills \
          (matchedRequiredLower jd (normalize_matched (jdAllSkills jd) m)).toFinset :=
      lowerFinset_missingRequired jd _
    have hmatched : (matchedRequiredLower jd (normalize_matched (jdAllSkills jd) m)).toFinset =
        lowerFinset (build_analysis jd m rat sim now).matched_skills ∩
          lowerFinset jd.required_skills :=
      matchedRequiredLower_toFinset jd _
    rw [hmiss, ← hmatched]
    exact Finset.inter_sdiff_self _ _

/-- With `force = false` and a cached record under the job's key, the
orchestrator returns the cached record unchanged and does not touch the
resume or the evaluator. -/
theorem ensure_cached (ai : AIOutcome) (resume : Resume) (jd : JobDescription)
    (skip_ai : Bool) (sim : ℚ) (now : String) (stored : AnalysisRecord)
    (hreq : jd.required_skills ≠ [])
    (hc : resume.analysis_results.lookup (jdKey jd.id) = some stored) :
    ensure_analysis_for_jd ai resume jd false skip_ai sim now =
      (stored, resume, false) := by
  unfold ensure_analysis_for_jd
  rw [if_neg hreq]
  have hcont : (if resume.analysis_results.any (fun kv => startsWithJd kv.1)
      then resume.analysis_results else []).lookup (jdKey jd.id) = some stored := by
    rw [container_lookup_eq]
    exact hc
  simp only [Bool.false_eq_true, if_false, hcont]

/-- Claim C6: with no concurrent writers, calling `ensure_analysis_for_jd`
twice in sequence with `force = false` returns identical records both times,
leaves the state of the first call untouched, and invokes the external
evaluator at most once across the two calls (the second call never invokes
it). -/
theorem C6_cache_idempotence (ai1 ai2 : AIOutcome) (resume : Resume)
    (jd : JobDescription) (skip1 skip2 : Bool) (sim1 sim2 : ℚ)
    (now1 now2 : String) :
    (ensure_analysis_for_jd ai2
        (ensure_analysis_for_jd ai1 resume jd false skip1 sim1 now1).2.1
        jd false skip2 sim2 now2).1 =
      (ensure_analysis_for_jd ai1 resume jd false skip1 sim1 now1).1
    ∧ (ensure_analysis_for_jd ai2
        (ensure_analysis_for_jd ai1 resume jd false skip1 sim1 now1).2.1
        jd false skip2 sim2 now2).2.1 =
      (ensure_analysis_for_jd ai1 resume jd false skip1 sim1 now1).2.1
    ∧ (ensure_analysis_for_jd ai2
        (ensure_analysis_for_jd ai1 resume jd false skip1 sim1 now1).2.1
        jd false skip2 sim2 now2).2.2 = false
    ∧ ((if (ensure_analysis_for_jd ai1 resume jd false skip1 sim1 now1).2.2 then 1 else 0) +
        (if (ensure_analysis_for_jd ai2
            (ensure_analysis_for_jd ai1 resume jd false skip1 sim1 now1).2.1
            jd false skip2 sim2 now2).2.2 then 1 else 0) : ℕ) ≤
      (if (ensure_analysis_for_jd ai1 resume jd false skip1 sim1 now1).2.2 then 1 else 0) := by
  by_cases hreq : jd.required_skills = []
  · have h1 : ensure_analysis_for_jd ai1 resume jd false skip1 sim1 now1 =
        (no_required_skills_record, resume, false) := by
      unfold ensure_analysis_for_jd
      rw [if_pos hreq]
    have h2 : ensure_analysis_for_jd ai2 resume jd false skip2 sim2 now2 =
        (no_required_skills_record, resume, false) := by
      unfold ensure_analysis_for_jd
      rw [if_pos hreq]
    rw [h1]
    simp only at *
    rw [h2]
    simp
  · cases hc : resume.analysis_results.lookup (jdKey jd.id) with
    | some stored =>
      have h1 := ensure_cached ai1 resume jd skip1 sim1 now1 stored hreq hc
      have h2 := ensure_cached ai2 resume jd skip2 sim2 now2 stored hreq hc
      rw [h1]
      simp only
      rw [h2]
      simp
    | none =>
      obtain ⟨hb1, hb2, hb3⟩ :=
        ensure_fresh_record ai1 resume jd false skip1 sim1 now1 hreq (Or.inr hc)
      have hc2 : (ensure_analysis_for_jd ai1 resume jd false skip1 sim1
          now1).2.1.analysis_results.lookup (jdKey jd.id) =
          some (ensure_analysis_for_jd ai1 resume jd false skip1 sim1 now1).1 := by
        rw [hb2, hb1]
        exact lookup_cacheSet_self _ _ _
      have h2 := ensure_cached ai2
        (ensure_analysis_for_jd ai1 resume jd false skip1 sim1 now1).2.1 jd
        skip2 sim2 now2
        (ensure_analysis_for_jd ai1 resume jd false skip1 sim1 now1).1 hreq hc2
      rw [h2]
      simp

/-- Every record assembled by `build_analysis` carries one of the three
AI-band ratings. -/
theorem build_analysis_rating_mem (jd : JobDescription) (m : List String)
    (rat : String) (sim : ℚ) (now : String) :
    (build_analysis jd m rat sim now).match_rating = "Strong" ∨
    (build_analysis jd m rat sim now).match_rating = "Good" ∨
    (build_analysis jd m rat sim now).match_rating = "Weak" := by
  rw [build_analysis_rating_eq]
  by_cases h1 : 70 < (build_analysis jd m rat sim now).score
  · exact Or.inl (by rw [if_pos h1])
  · by_cases h2 : 35 < (build_analysis jd m rat sim now).score
    · exact Or.inr (Or.inl (by rw [if_neg h1, if_pos h2]))
    · exact Or.inr (Or.inr (by rw [if_neg h1, if_neg h2]))

/-- Claim C5 counterexample: with `skip_ai` set, `ensure_analysis_for_jd`
persists and returns a record rated `Weak` although the external evaluator
was never invoked — refuting "every record with rating Strong/Good/Weak was
produced by the high-fidelity external evaluator". -/
theorem C5_counterexample :
    (ensure_analysis_for_jd AIOutcome.err ⟨1, "", [], []⟩ ⟨2, "", ["python"], []⟩
        false true 0 "t").1.match_rating = "Weak"
  ∧ (ensure_analysis_for_jd AIOutcome.err ⟨1, "", [], []⟩ ⟨2, "", ["python"], []⟩
        false true 0 "t").2.2 = false
  ∧ (ensure_analysis_for_jd AIOutcome.err ⟨1, "", [], []⟩ ⟨2, "", ["python"], []⟩
        false true 0 "t").2.1.analysis_results.lookup (jdKey 2) =
      some (ensure_analysis_for_jd AIOutcome.err ⟨1, "", [], []⟩ ⟨2, "", ["python"], []⟩
        false true 0 "t").1 := by
  obtain ⟨h1, h2, h3⟩ := ensure_fresh_record AIOutcome.err ⟨1, "", [], []⟩
    ⟨2, "", ["python"], []⟩ false true 0 "t" (by decide) (Or.inr rfl)
  refine ⟨?_, h3, ?_⟩
  · rw [h1, build_analysis_rating_eq, build_analysis_score_eq]
    norm_num [matchedRequiredLower, normalize_matched, normalizeMatchedGo, aiResultFor,
      requiredLower, niceLower, dedup_keep_order, dedupGo, round2]
  · rw [h2, h1]
    simp only [List.any_nil, Bool.false_eq_true, if_false]
    exact lookup_cacheSet_self _ _ _

/-- Claim C5 (amended): every record persisted into the per-job analysis map
is produced by the high-fidelity path of `ensure_analysis_for_jd` and rated
Strong, Good or Weak (so `Preliminary` is never persisted) — but the
producing run may be the skip-AI stub or the evaluator-failure fallback, not
necessarily an actual evaluator invocation; the heuristic scorer itself
always rates `Preliminary` and never writes the map. -/
theorem C5_amended_persistence (pr : String → String → ℚ)
    (tf : String → String → Option ℚ) (yearsMatches : String → List ℚ)
    (jd_text : String) (jd_req_skills jd_nice_skills : List String)
    (resume_text : String) (ai : AIOutcome) (resume : Resume)
    (jd : JobDescription) (force skip_ai : Bool) (sim : ℚ) (now : String) :
    (compute_prelim_score pr tf yearsMatches jd_text jd_req_skills jd_nice_skills
        resume_text).match_rating = "Preliminary"
    ∧ ((ensure_analysis_for_jd ai resume jd force skip_ai sim now).2.1.analysis_results =
        resume.analysis_results
      ∨ (((ensure_analysis_for_jd ai resume jd force skip_ai sim now).2.1.analysis_results =
            cacheSet resume.analysis_results (jdKey jd.id)
              (ensure_analysis_for_jd ai resume jd force skip_ai sim now).1
          ∨ (ensure_analysis_for_jd ai resume jd force skip_ai sim now).2.1.analysis_results =
            cacheSet [] (jdKey jd.id)
              (ensure_analysis_for_jd ai resume jd force skip_ai sim now).1)
        ∧ ((ensure_analysis_for_jd ai resume jd force skip_ai sim now).1.match_rating = "Strong"
          ∨ (ensure_analysis_for_jd ai resume jd force skip_ai sim now).1.match_rating = "Good"
          ∨ (ensure_analysis_for_jd ai resume jd force skip_ai sim now).1.match_rating = "Weak"))) := by
  refine ⟨rfl, ?_⟩
  by_cases hreq : jd.required_skills = []
  · left
    unfold ensure_analysis_for_jd
    rw [if_pos hreq]
  · by_cases hfresh : force = true ∨ resume.analysis_results.lookup (jdKey jd.id) = none
    · obtain ⟨h1, h2, -⟩ := ensure_fresh_record ai resume jd force skip_ai sim now hreq hfresh
      right
      constructor
      · by_cases hany : resume.analysis_results.any (fun kv => startsWithJd kv.1) = true
        · left
          rw [h2, if_pos hany, h1]
        · right
          rw [h2, if_neg hany, h1]
      · rw [h1]
        exact build_analysis_rating_mem jd _ _ sim now
    · push_neg at hfresh
      obtain ⟨hforce, hsome⟩ := hfresh
      have hff : force = false := by
        cases force with
        | true => exact absurd rfl hforce
        | false => rfl
      subst hff
      cases hl : resume.analysis_results.lookup (jdKey jd.id) with
      | none => exact absurd hl hsome
      | some stored =>
        left
        rw [ensure_cached ai resume jd skip_ai sim now stored hreq hl]

/-- Claim C7 counterexample: for a candidate whose analysis map already
holds a record for another job (key `jd_1`), calling the orchestrator with
`force = true` and `skip_ai = false` on a job whose required-skill list is
empty does **not** invoke the external evaluator — refuting "force=true
always invokes the external evaluator (unless skipAI)". -/
theorem C7_counterexample :
    (⟨1, "", [], [(jdKey 1, no_required_skills_record)]⟩ : Resume).analysis_results.lookup
        (jdKey 1) = some no_required_skills_record
  ∧ (⟨2, "", [], []⟩ : JobDescription).id ≠ 1
  ∧ (ensure_analysis_for_jd (AIOutcome.ok [] [] none)
        ⟨1, "", [], [(jdKey 1, no_required_skills_record)]⟩
        ⟨2, "", [], []⟩ true false 0 "t").2.2 = false := by
  refine ⟨?_, by decide, rfl⟩
  simp [List.lookup]

/-- Claim C7 (amended): for every candidate whose per-job analysis map
already holds a record under some job key, and every job with a non-empty
required-skill list, `ensure_analysis_for_jd` with `force = true` always
invokes the external evaluator (unless `skip_ai`) regardless of existing
cache state, and overwrites only the entry under key `jd_<jobId>`, leaving
every other key's record unchanged. -/
theorem C7_amended_force_semantics (ai : AIOutcome) (resume : Resume)
    (jd : JobDescription) (skip_ai : Bool) (sim : ℚ) (now : String)
    (j' : ℕ) (rec' : AnalysisRecord)
    (hreq : jd.required_skills ≠ [])
    (hother : (jdKey j', rec') ∈ resume.analysis_results) :
    (ensure_analysis_for_jd ai resume jd true skip_ai sim now).2.2 = !skip_ai
  ∧ (ensure_analysis_for_jd ai resume jd true skip_ai sim now).2.1.analysis_results =
      cacheSet resume.analysis_results (jdKey jd.id)
        (ensure_analysis_for_jd ai resume jd true skip_ai sim now).1
  ∧ ∀ k : String, k ≠ jdKey jd.id →
      (ensure_analysis_for_jd ai resume jd true skip_ai sim
          now).2.1.analysis_results.lookup k =
        resume.analysis_results.lookup k := by
  have hany : resume.analysis_results.any (fun kv => startsWithJd kv.1) = true := by
    rw [List.any_eq_true]
    exact ⟨(jdKey j', rec'), hother, startsWithJd_jdKey j'⟩
  obtain ⟨h1, h2, h3⟩ :=
    ensure_fresh_record ai resume jd true skip_ai sim now hreq (Or.inl rfl)
  rw [if_pos hany] at h2
  refine ⟨h3, ?_, ?_⟩
  · rw [h2, h1]
  · intro k hk
    rw [h2, lookup_cacheSet_ne _ _ _ _ hk]

/-- Witness for the amended C7 at a concrete state holding a `jd_1` record
while analysing job 2. -/
theorem C7_amended_force_semantics_witness :
    (ensure_analysis_for_jd (AIOutcome.ok [] [] none)
        ⟨1, "", [], [(jdKey 1, no_required_skills_record)]⟩
        ⟨2, "", ["python"], []⟩ true false 0 "t").2.2 = !false
  ∧ (ensure_analysis_for_jd (AIOutcome.ok [] [] none)
        ⟨1, "", [], [(jdKey 1, no_required_skills_record)]⟩
        ⟨2, "", ["python"], []⟩ true false 0 "t").2.1.analysis_results =
      cacheSet [(jdKey 1, no_required_skills_record)] (jdKey 2)
        (ensure_analysis_for_jd (AIOutcome.ok [] [] none)
          ⟨1, "", [], [(jdKey 1, no_required_skills_record)]⟩
          ⟨2, "", ["python"], []⟩ true false 0 "t").1 :=
  ⟨(C7_amended_force_semantics (AIOutcome.ok [] [] none)
      ⟨1, "", [], [(jdKey 1, no_required_skills_record)]⟩
      ⟨2, "", ["python"], []⟩ false 0 "t" 1 no_required_skills_record
      (by decide) (List.mem_singleton.mpr rfl)).1,
   (C7_amended_force_semantics (AIOutcome.ok [] [] none)
      ⟨1, "", [], [(jdKey 1, no_required_skills_record)]⟩
      ⟨2, "", ["python"], []⟩ false 0 "t" 1 no_required_skills_record
      (by decide) (List.mem_singleton.mpr rfl)).2.1⟩

/-- Claim C8 counterexample: in the batch full-analysis path, for a job
whose required-skill list is empty, `force = true` does **not** invoke the
external evaluator (the orchestrator short-circuits) — refuting "with
force=true the evaluator is invoked regardless of similarity". -/
theorem C8_counterexample :
    (0.05 : ℚ) < 0.15
  ∧ (⟨2, "", [], []⟩ : JobDescription).required_skills = []
  ∧ (full_analysis_evaluate (fun _ _ => 0) (fun _ _ => none) (fun _ => [])
      (AIOutcome.ok [] [] none) ⟨1, "", [], []⟩ ⟨2, "", [], []⟩ true 0.05
      "t").2.2 = false := by
  refine ⟨by norm_num, rfl, ?_⟩
  unfold full_analysis_evaluate
  rw [if_neg (by simp)]
  rfl

/-- Claim C8 (amended): in the batch full-analysis path, a candidate whose
embedding similarity is below 0.15, with `force = false` and no cached
record under the job's key, receives a Preliminary-rated heuristic result
and the external evaluator is not invoked; with `force = true` the evaluator
is invoked regardless of similarity provided the job's required-skill list
is non-empty. -/
theorem C8_amended_batch_prefilter (pr : String → String → ℚ)
    (tf : String → String → Option ℚ) (yearsMatches : String → List ℚ)
    (ai : AIOutcome) (resume : Resume) (jd : JobDescription) (force : Bool)
    (sim : ℚ) (now : String) :
    ((sim < 0.15 → force = false →
        resume.analysis_results.lookup (jdKey jd.id) = none →
      (full_analysis_evaluate pr tf yearsMatches ai resume jd force sim
          now).1.match_rating = "Preliminary"
      ∧ (full_analysis_evaluate pr tf yearsMatches ai resume jd force sim
          now).2.2 = false
      ∧ (full_analysis_evaluate pr tf yearsMatches ai resume jd force sim
          now).1.score =
        (calculate_candidate_match pr tf yearsMatches resume jd).score)
    ∧ (jd.required_skills ≠ [] → force = true →
      (full_analysis_evaluate pr tf yearsMatches ai resume jd force sim
          now).2.2 = true)) := by
  constructor
  · intro h1 h2 h3
    have hcond : sim < 0.15 ∧ force = false ∧
        ((resume.analysis_results.lookup (jdKey jd.id)).isSome) = false :=
      ⟨h1, h2, by rw [h3]; rfl⟩
    unfold full_analysis_evaluate
    rw [if_pos hcond]
    exact ⟨rfl, rfl, rfl⟩
  · intro hreq hforce
    subst hforce
    unfold full_analysis_evaluate
    rw [if_neg (by simp)]
    obtain ⟨-, -, h3⟩ :=
      ensure_fresh_record ai resume jd true false sim now hreq (Or.inl rfl)
    simpa using h3

/-- Witness for the amended C8 at a concrete state: similarity 0.05 with no
cache entry yields a Preliminary heuristic row without invoking the
evaluator, and forcing on a job with required skills invokes it. -/
theorem C8_amended_batch_prefilter_witness :
    ((full_analysis_evaluate (fun _ _ => 0) (fun _ _ => none) (fun _ => [])
        (AIOutcome.ok [] [] none) ⟨1, "", [], []⟩ ⟨2, "", ["python"], []⟩ false
        0.05 "t").1.match_rating = "Preliminary"
    ∧ (full_analysis_evaluate (fun _ _ => 0) (fun _ _ => none) (fun _ => [])
        (AIOutcome.ok [] [] none) ⟨1, "", [], []⟩ ⟨2, "", ["python"], []⟩ false
        0.05 "t").2.2 = false
    ∧ (full_analysis_evaluate (fun _ _ => 0) (fun _ _ => none) (fun _ => [])
        (AIOutcome.ok [] [] none) ⟨1, "", [], []⟩ ⟨2, "", ["python"], []⟩ false
        0.05 "t").1.score =
      (calculate_candidate_match (fun _ _ => 0) (fun _ _ => none) (fun _ => [])
        ⟨1, "", [], []⟩ ⟨2, "", ["python"], []⟩).score)
    ∧ (full_analysis_evaluate (fun _ _ => 0) (fun _ _ => none) (fun _ => [])
        (AIOutcome.ok [] [] none) ⟨1, "", [], []⟩ ⟨2, "", ["python"], []⟩ true
        0.05 "t").2.2 = true :=
  ⟨(C8_amended_batch_prefilter (fun _ _ => 0) (fun _ _ => none) (fun _ => [])
      (AIOutcome.ok [] [] none) ⟨1, "", [], []⟩ ⟨2, "", ["python"], []⟩ false
      0.05 "t").1 (by norm_num) rfl rfl,
   (C8_amended_batch_prefilter (fun _ _ => 0) (fun _ _ => none) (fun _ => [])
      (AIOutcome.ok [] [] none) ⟨1, "", [], []⟩ ⟨2, "", ["python"], []⟩ true
      0.05 "t").2 (by decide) rfl⟩

theorem lowerFinset_fallback_matched (parsed : List String) (jd : JobDescription) :
    lowerFinset (fallback_matched parsed jd) =
      lowerFinset parsed ∩ lowerFinset (jdAllSkills jd) := by
  ext y
  simp only [mem_lowerFinset, fallback_matched, List.mem_filter, Finset.mem_inter,
    decide_eq_true_eq, List.mem_map]
  constructor
  · rintro ⟨s, ⟨hs, x, hx, hxl⟩, rfl⟩
    exact ⟨⟨s, hs, rfl⟩, ⟨x, hx, hxl⟩⟩
  · rintro ⟨⟨s, hs, rfl⟩, x, hx, hxl⟩
    exact ⟨s, ⟨hs, x, hx, hxl⟩, rfl⟩

/-- Claim C9: for a job with required skills, when the external evaluator
raises, the orchestrator falls back (without raising — the model is a total
function) to a record whose matched skills are exactly the candidate's
previously parsed structured skill list intersected case-insensitively with
the union of the job's required and nice-to-have skills, with the rationale
text stating that AI was unavailable and the fallback basis. -/
theorem C9_evaluator_failure_fallback (resume : Resume) (jd : JobDescription)
    (force : Bool) (sim : ℚ) (now : String)
    (hreq : jd.required_skills ≠ [])
    (hfresh : force = true ∨ resume.analysis_results.lookup (jdKey jd.id) = none) :
    lowerFinset (ensure_analysis_for_jd AIOutcome.err resume jd force false sim
        now).1.matched_skills =
      lowerFinset resume.parsed_skills ∩ lowerFinset (jdAllSkills jd)
  ∧ (ensure_analysis_for_jd AIOutcome.err resume jd force false sim now).1.rationale =
      "Fallback rationale: AI unavailable; matched skills derived from parsed resume only." := by
  obtain ⟨h1, -, -⟩ :=
    ensure_fresh_record AIOutcome.err resume jd force false sim now hreq hfresh
  rw [h1]
  constructor
  · show lowerFinset (normalize_matched (jdAllSkills jd)
      (fallback_matched resume.parsed_skills jd)) = _
    rw [lowerFinset_normalize_matched]
    exact lowerFinset_fallback_matched resume.parsed_skills jd
  · rfl

/-- Witness for C9 at a concrete (candidate, job) pair with a structured
parse listing Python and Excel against a job requiring python and liking
sql. -/
theorem C9_evaluator_failure_fallback_witness :
    lowerFinset (ensure_analysis_for_jd AIOutcome.err ⟨1, "", ["Python", "Excel"], []⟩
        ⟨1, "", ["python"], ["sql"]⟩ false false 0 "t").1.matched_skills =
      lowerFinset ["Python", "Excel"] ∩
        lowerFinset (jdAllSkills ⟨1, "", ["python"], ["sql"]⟩)
  ∧ (ensure_analysis_for_jd AIOutcome.err ⟨1, "", ["Python", "Excel"], []⟩
        ⟨1, "", ["python"], ["sql"]⟩ false false 0 "t").1.rationale =
      "Fallback rationale: AI unavailable; matched skills derived from parsed resume only." :=
  C9_evaluator_failure_fallback ⟨1, "", ["Python", "Excel"], []⟩
    ⟨1, "", ["python"], ["sql"]⟩ false 0 "t" (by decide) (Or.inr rfl)

/-! ### Lemmas about the defensive cosine similarity -/

theorem sum_a_pairs_nonneg (l : List (Option ℚ × Option ℚ)) : 0 ≤ sum_a_pairs l := by
  induction l with
  | nil => simp [sum_a_pairs]
  | cons p rest ih =>
    rcases p with ⟨a, b⟩
    cases a with
    | none => simpa [sum_a_pairs] using ih
    | some a' =>
      cases b with
      | none => simpa [sum_a_pairs] using ih
      | some b' =>
        show 0 ≤ a' * a' + sum_a_pairs rest
        nlinarith [sq_nonneg a']

theorem sum_b_pairs_nonneg (l : List (Option ℚ × Option ℚ)) : 0 ≤ sum_b_pairs l := by
  induction l with
  | nil => simp [sum_b_pairs]
  | cons p rest ih =>
    rcases p with ⟨a, b⟩
    cases a with
    | none => simpa [sum_b_pairs] using ih
    | some a' =>
      cases b with
      | none => simpa [sum_b_pairs] using ih
      | some b' =>
        show 0 ≤ b' * b' + sum_b_pairs rest
        nlinarith [sq_nonneg b']

/-- Cauchy–Schwarz over the numeric pairs actually accumulated by the
cosine loop. -/
theorem dot_pairs_sq_le (l : List (Option ℚ × Option ℚ)) :
    dot_pairs l ^ 2 ≤ sum_a_pairs l * sum_b_pairs l := by
  induction l with
  | nil => simp [dot_pairs, sum_a_pairs, sum_b_pairs]
  | cons p rest ih =>
    rcases p with ⟨a, b⟩
    cases a with
    | none => simpa [dot_pairs, sum_a_pairs, sum_b_pairs] using ih
    | some a' =>
      cases b with
      | none => simpa [dot_pairs, sum_a_pairs, sum_b_pairs] using ih
      | some b' =>
        show (a' * b' + dot_pairs rest) ^ 2 ≤
          (a' * a' + sum_a_pairs rest) * (b' * b' + sum_b_pairs rest)
        have hsa := sum_a_pairs_nonneg rest
        have hsb := sum_b_pairs_nonneg rest
        have hx : 0 ≤ a' * a' * sum_b_pairs rest + b' * b' * sum_a_pairs rest :=
          add_nonneg (mul_nonneg (mul_self_nonneg a') hsb)
            (mul_nonneg (mul_self_nonneg b') hsa)
        have h4 : 4 * (a' * b') ^ 2 * (sum_a_pairs rest * sum_b_pairs rest) ≤
            (a' * a' * sum_b_pairs rest + b' * b' * sum_a_pairs rest) ^ 2 := by
          nlinarith [sq_nonneg (a' * a' * sum_b_pairs rest - b' * b' * sum_a_pairs rest)]
        have h5 : (2 * (a' * b') * dot_pairs rest) ^ 2 ≤
            4 * (a' * b') ^ 2 * (sum_a_pairs rest * sum_b_pairs rest) := by
          have hm := mul_le_mul_of_nonneg_left ih
            (show (0:ℚ) ≤ 4 * (a' * b') ^ 2 by positivity)
          nlinarith [hm]
        have h2 : 2 * (a' * b') * dot_pairs rest ≤
            a' * a' * sum_b_pairs rest + b' * b' * sum_a_pairs rest := by
          nlinarith [hx, h4, h5]
        nlinarith [ih, h2]

theorem cosine_similarity_vec_eq (xs ys : List (Option ℚ)) (hx : xs ≠ [])
    (hy : ys ≠ []) (hsa : sum_a_pairs (xs.zip ys) ≠ 0)
    (hsb : sum_b_pairs (xs.zip ys) ≠ 0) :
    cosine_similarity (PyVec.vec xs) (PyVec.vec ys) =
      (dot_pairs (xs.zip ys) : ℝ) /
        (Real.sqrt ((sum_a_pairs (xs.zip ys) : ℚ) : ℝ) *
          Real.sqrt ((sum_b_pairs (xs.zip ys) : ℚ) : ℝ)) := by
  simp only [cosine_similarity]
  rw [if_neg (by simp [hx, hy]), if_neg (by simp [hsa, hsb])]

theorem div_sqrt_bounds (d sa sb : ℚ) (hd : d ^ 2 ≤ sa * sb) (hsa : 0 ≤ sa)
    (hsb : 0 ≤ sb) (hsa0 : sa ≠ 0) (hsb0 : sb ≠ 0) :
    -1 ≤ (d : ℝ) / (Real.sqrt (sa : ℝ) * Real.sqrt (sb : ℝ)) ∧
      (d : ℝ) / (Real.sqrt (sa : ℝ) * Real.sqrt (sb : ℝ)) ≤ 1 := by
  have hsa' : (0 : ℝ) < (sa : ℝ) := by
    have : (0:ℚ) < sa := lt_of_le_of_ne hsa (Ne.symm hsa0)
    exact_mod_cast this
  have hsb' : (0 : ℝ) < (sb : ℝ) := by
    have : (0:ℚ) < sb := lt_of_le_of_ne hsb (Ne.symm hsb0)
    exact_mod_cast this
  have hden : 0 < Real.sqrt (sa : ℝ) * Real.sqrt (sb : ℝ) :=
    mul_pos (Real.sqrt_pos.mpr hsa') (Real.sqrt_pos.mpr hsb')
  have habs : |(d : ℝ)| ≤ Real.sqrt (sa : ℝ) * Real.sqrt (sb : ℝ) := by
    have h1 : ((d : ℝ)) ^ 2 ≤ (sa : ℝ) * (sb : ℝ) := by exact_mod_cast hd
    calc |(d : ℝ)| = Real.sqrt ((d : ℝ) ^ 2) := (Real.sqrt_sq_eq_abs _).symm
      _ ≤ Real.sqrt ((sa : ℝ) * (sb : ℝ)) := Real.sqrt_le_sqrt h1
      _ = Real.sqrt (sa : ℝ) * Real.sqrt (sb : ℝ) := Real.sqrt_mul (le_of_lt hsa') _
  constructor
  · rw [le_div_iff₀ hden]
    have := neg_abs_le (d : ℝ)
    linarith
  · rw [div_le_one hden]
    have := le_abs_self (d : ℝ)
    linarith

theorem cosine_similarity_mem_Icc (va vb : PyVec) :
    -1 ≤ cosine_similarity va vb ∧ cosine_similarity va vb ≤ 1 := by
  have h0 : (-1 : ℝ) ≤ 0 ∧ (0 : ℝ) ≤ 1 := by norm_num
  cases va with
  | null => exact h0
  | nonSeq => exact h0
  | vec xs =>
    cases vb with
    | null => exact h0
    | nonSeq => exact h0
    | vec ys =>
      by_cases hlen : xs.length = 0 ∨ ys.length = 0
      · have hc : cosine_similarity (PyVec.vec xs) (PyVec.vec ys) = 0 := by
          simp only [cosine_similarity]
          rw [if_pos hlen]
        rw [hc]
        exact h0
      · by_cases hz : sum_a_pairs (xs.zip ys) = 0 ∨ sum_b_pairs (xs.zip ys) = 0
        · have hc : cosine_similarity (PyVec.vec xs) (PyVec.vec ys) = 0 := by
            simp only [cosine_similarity]
            rw [if_neg hlen, if_pos hz]
          rw [hc]
          exact h0
        · push_neg at hlen hz
          rw [cosine_similarity_vec_eq xs ys
            (fun h => hlen.1 (by rw [h]; rfl))
            (fun h => hlen.2 (by rw [h]; rfl)) hz.1 hz.2]
          exact div_sqrt_bounds _ _ _ (dot_pairs_sq_le _) (sum_a_pairs_nonneg _)
            (sum_b_pairs_nonneg _) hz.1 hz.2

/-- Claim C4 counterexample: the defensive cosine similarity can return a
negative value — at `vec_a = [1.0]`, `vec_b = [-1.0]` it returns exactly
`-1.0`, refuting the claimed codomain `[0, 1]`. -/
theorem C4_counterexample :
    cosine_similarity (PyVec.vec [some 1]) (PyVec.vec [some (-1)]) = -1
  ∧ cosine_similarity (PyVec.vec [some 1]) (PyVec.vec [some (-1)]) < 0 := by
  have h : cosine_similarity (PyVec.vec [some 1]) (PyVec.vec [some (-1)]) = -1 := by
    rw [cosine_similarity_vec_eq [some 1] [some (-1)] (by decide) (by decide)
      (by norm_num [sum_a_pairs, List.zip]) (by norm_num [sum_b_pairs, List.zip])]
    norm_num [dot_pairs, sum_a_pairs, sum_b_pairs, List.zip, Real.sqrt_one]
  exact ⟨h, by rw [h]; norm_num⟩

/-- Claim C4 (amended): the defensive cosine similarity never raises (a
total function here), returns a value in `[-1, 1]`, returns 0.0 for null,
non-sequence, empty or zero-norm inputs, and otherwise pairs the elements
positionally up to the shorter length (`zip`), skips non-numeric pairs, and
returns the dot product over the product of the norms. -/
theorem C4_amended_cosine_contract (va vb : PyVec) (xs ys : List (Option ℚ)) :
    (-1 ≤ cosine_similarity va vb ∧ cosine_similarity va vb ≤ 1)
  ∧ cosine_similarity PyVec.null vb = 0
  ∧ cosine_similarity va PyVec.null = 0
  ∧ cosine_similarity PyVec.nonSeq vb = 0
  ∧ cosine_similarity va PyVec.nonSeq = 0
  ∧ cosine_similarity (PyVec.vec []) vb = 0
  ∧ cosine_similarity va (PyVec.vec []) = 0
  ∧ (sum_a_pairs (xs.zip ys) = 0 ∨ sum_b_pairs (xs.zip ys) = 0 →
      cosine_similarity (PyVec.vec xs) (PyVec.vec ys) = 0)
  ∧ (xs ≠ [] → ys ≠ [] → sum_a_pairs (xs.zip ys) ≠ 0 →
      sum_b_pairs (xs.zip ys) ≠ 0 →
      cosine_similarity (PyVec.vec xs) (PyVec.vec ys) =
        (dot_pairs (xs.zip ys) : ℝ) /
          (Real.sqrt ((sum_a_pairs (xs.zip ys) : ℚ) : ℝ) *
            Real.sqrt ((sum_b_pairs (xs.zip ys) : ℚ) : ℝ))) := by
  refine ⟨cosine_similarity_mem_Icc va vb, rfl, ?_, rfl, ?_, ?_, ?_, ?_, ?_⟩
  · cases va <;> rfl
  · cases va <;> rfl
  · cases vb with
    | null => rfl
    | nonSeq => rfl
    | vec ys' =>
      simp only [cosine_similarity]
      have hcnd : ([] : List (Option ℚ)).length = 0 ∨ ys'.length = 0 := Or.inl rfl
      rw [if_pos hcnd]
  · cases va with
    | null => rfl
    | nonSeq => rfl
    | vec xs' =>
      simp only [cosine_similarity]
      have hcnd : xs'.length = 0 ∨ ([] : List (Option ℚ)).length = 0 := Or.inr rfl
      rw [if_pos hcnd]
  · intro hz
    by_cases hlen : xs.length = 0 ∨ ys.length = 0
    · simp only [cosine_similarity]
      rw [if_pos hlen]
    · simp only [cosine_similarity]
      rw [if_neg hlen, if_pos hz]
  · intro hx hy hsa hsb
    exact cosine_similarity_vec_eq xs ys hx hy hsa hsb

/-- Witness for the amended C4 at concrete one-element vectors. -/
theorem C4_amended_cosine_contract_witness :
    (-1 ≤ cosine_similarity (PyVec.vec [some 1]) (PyVec.vec [some 1]) ∧
      cosine_similarity (PyVec.vec [some 1]) (PyVec.vec [some 1]) ≤ 1)
  ∧ cosine_similarity (PyVec.vec [some 1]) (PyVec.vec [some 1]) =
      (dot_pairs ([some 1].zip [some 1]) : ℝ) /
        (Real.sqrt ((sum_a_pairs ([some 1].zip [some 1]) : ℚ) : ℝ) *
          Real.sqrt ((sum_b_pairs ([some 1].zip [some 1]) : ℚ) : ℝ)) :=
  ⟨(C4_amended_cosine_contract (PyVec.vec [some 1]) (PyVec.vec [some 1])
      [some 1] [some 1]).1,
   (C4_amended_cosine_contract (PyVec.vec [some 1]) (PyVec.vec [some 1])
      [some 1] [some 1]).2.2.2.2.2.2.2.2 (by decide) (by decide)
      (by norm_num [sum_a_pairs, List.zip]) (by norm_num [sum_b_pairs, List.zip])⟩

/-- Every match produced by the `_WORD_RE` scan is non-empty and starts
with an ASCII letter, at every fuel level. -/
theorem findTokensF_head_letter (fuel : ℕ) (cs : List Char) (tok : List Char)
    (h : tok ∈ findTokensF fuel cs) :
    tok ≠ [] ∧ isAsciiLetter (tok.headD ' ') = true := by
  induction fuel generalizing cs with
  | zero => simp [findTokensF] at h
  | succ n ih =>
    cases cs with
    | nil => simp [findTokensF] at h
    | cons c rest =>
      rw [findTokensF] at h
      split at h
      · rename_i hc
        rcases List.mem_cons.mp h with rfl | h'
        · exact ⟨by simp, by simpa using hc⟩
        · exact ih _ h'
      · exact ih _ h

/-- Claim C10 counterexample: the digit-initial run `"3D"` is not dropped
entirely by the normalizer (its letter tail survives as the token `"d"`),
and the digit-initial skill label `"3D"` **is** matched by the exact
case-insensitive substring branch of `_fuzzy_contains` against the
normalized resume text `"was3d"` (the partial-ratio oracle is pinned to 0,
so only the substring branch can account for the match). -/
theorem C10_counterexample :
    normalize_text "3D" = "d"
  ∧ normalize_text "3D" ≠ ""
  ∧ strContains (normalize_text "was3d") (pyLower "3D") = true
  ∧ fuzzy_contains (fun _ _ => 0) (normalize_text "was3d") "3D" 85 = true := by
  refine ⟨by decide, by decide, by decide, by decide⟩

/-- Claim C10 (amended): every token emitted by the text normalizer begins
with an ASCII letter; a run containing no letter (such as `"2023"`) is
dropped entirely, but a digit-initial run such as `"3D"` keeps its maximal
letter-initial tail (`"d"`), and consequently a skill label whose first
character is a digit **can** still be matched by the exact case-insensitive
substring branch of fuzzy matching when its text occurs inside a
letter-initial token of the normalized resume text. -/
theorem C10_amended_tokenizer (s t : String)
    (h : t ∈ normalize_text_tokens s) :
    (t.data ≠ [] ∧ isAsciiLetter (t.data.headD ' ') = true)
  ∧ normalize_text "2023" = ""
  ∧ normalize_text "3D" = "d"
  ∧ fuzzy_contains (fun _ _ => 0) (normalize_text "was3d") "3D" 85 = true := by
  refine ⟨?_, by decide, by decide, by decide⟩
  simp only [normalize_text_tokens, word_re_findall] at h
  rcases List.mem_map.mp h with ⟨tok, htok, rfl⟩
  exact findTokensF_head_letter _ _ tok htok

/-- Witness for the amended C10: the token `"ab"` of the normalized text
`"ab 12"` starts with an ASCII letter. -/
theorem C10_amended_tokenizer_witness :
    ("ab" ∈ normalize_text_tokens "ab 12")
  ∧ (("ab" : String).data ≠ [] ∧
      isAsciiLetter (("ab" : String).data.headD ' ') = true) :=
  ⟨by decide, (C10_amended_tokenizer "ab 12" "ab" (by decide)).1⟩

end ResumeMatcher
